import Mathlib

/-!
Verification of the songnft multi-token ledger (src/songnft/lib.rs).

The contract stores balances keyed by (account, token-id), plus an (unused)
approvals store.  Operations: `create` (register a token entry for the
caller, failing if it already exists), `mint` (overwrite the caller's
balance for an existing entry), `balance_of` (read, defaulting to 0),
`balance_of_batch` (cross-product read), and two always-aborting receiver
entry points.  Each operation is embedded below as a pure function on an
explicit state; the host's abort-on-error semantics is captured by
returning `Except` and, at the call level, by `applyCall` leaving the state
unchanged on failure.
-/

namespace Songnft

/-- Account identifier.  In the source this is `ink::primitives::AccountId`,
an opaque 32-byte value used only as an equality-comparable key; it is
modelled as a natural number. -/
abbrev AccountId := Nat

/-- Token ids: `pub type TokenId = u128`.  Token ids are only used as keys (no
arithmetic is performed on them), so they are modelled as naturals. -/
abbrev TokenId := Nat

/-- Balances: `type Balance = <DefaultEnvironment as Environment>::Balance` (`u128`).
Balances are only stored, read and compared with 0 (no arithmetic), so they
are modelled as naturals. -/
abbrev Balance := Nat

/-- A byte, for `Vec<u8>` arguments and return values. -/
abbrev U8 := Fin 256

/-- The ERC-1155 error types (`enum Error` in the source). -/
inductive Error where
  | UnexistentToken
  | ZeroAddressTransfer
  | NotApproved
  | InsufficientBalance
  | SelfApproval
  | BatchTransferMismatch
  | TokenAlreadyExists
  | UnexistentTokenOrCallerNotOwner
  deriving DecidableEq, Repr

/-- The `TransferSingle` event (the only event the embedded operations
emit).  The Rust field `from` is a Lean keyword, hence `from_`. -/
structure TransferSingle where
  operator : Option AccountId
  from_ : Option AccountId
  to_ : Option AccountId
  token_id : TokenId
  value : Balance
  deriving DecidableEq, Repr

/-- The contract storage: `balances: Mapping<(AccountId, TokenId), Balance>`
and `approvals: Mapping<(Owner, Operator), ()>`.  An ink `Mapping` is
modelled as a partial function from keys to values; `None` is absence.  -/
structure Contract where
  balances : AccountId × TokenId → Option Balance
  approvals : AccountId × AccountId → Option Unit

/-- Constructor `Contract::new()` — `Default::default()`: both mappings empty. -/
def Contract.new : Contract :=
  { balances := fun _ => none, approvals := fun _ => none }

/-- Operation `create(&mut self, value, token_id)`.  The caller is the ink
environment's caller, threaded here as an explicit argument.  Fails with
`TokenAlreadyExists` when `balances.contains((caller, token_id))`;
otherwise inserts `value` at that key, emits a `TransferSingle` whose `to`
is `None` exactly when `value == 0`, and returns the token id. -/
def Contract.create (self : Contract) (caller : AccountId) (value : Balance)
    (token_id : TokenId) : Except Error (Contract × TransferSingle × TokenId) :=
  if (self.balances (caller, token_id)).isSome then
    .error .TokenAlreadyExists
  else
    .ok
      ({ self with
          balances := fun k =>
            if k = (caller, token_id) then some value else self.balances k },
        { operator := some caller
          from_ := none
          to_ := if value = 0 then none else some caller
          token_id := token_id
          value := value },
        token_id)

/-- Operation `mint(&mut self, token_id, value)`.  Fails with
`UnexistentTokenOrCallerNotOwner` unless `balances.contains((caller,
token_id))`; otherwise overwrites the entry with `value` and emits a
`TransferSingle` with `from = None`, `to = Some(caller)`. -/
def Contract.mint (self : Contract) (caller : AccountId) (token_id : TokenId)
    (value : Balance) : Except Error (Contract × TransferSingle) :=
  if (self.balances (caller, token_id)).isSome then
    .ok
      ({ self with
          balances := fun k =>
            if k = (caller, token_id) then some value else self.balances k },
        { operator := some caller
          from_ := none
          to_ := some caller
          token_id := token_id
          value := value })
  else
    .error .UnexistentTokenOrCallerNotOwner

/-- Operation `balance_of(&self, owner, token_id)`:
`self.balances.get((owner, token_id)).unwrap_or(0)`. -/
def Contract.balance_of (self : Contract) (owner : AccountId)
    (token_id : TokenId) : Balance :=
  (self.balances (owner, token_id)).getD 0

/-- Operation `balance_of_batch(&self, owners, token_ids)`: nested for-loops pushing
`balance_of(o, t)` onto an initially empty output vector — outer loop over
`owners`, inner loop over `token_ids`. -/
def Contract.balance_of_batch (self : Contract) (owners : List AccountId)
    (token_ids : List TokenId) : List Balance :=
  owners.foldl
    (fun output o =>
      token_ids.foldl (fun output t => output ++ [self.balance_of o t]) output)
    []

/-- Selector `0xF23A6E61` that `on_received` would have to return to accept
a single transfer. -/
def ON_ERC_1155_RECEIVED_SELECTOR : List U8 := [0xF2, 0x3A, 0x6E, 0x61]

/-- Constant `_ON_ERC_1155_BATCH_RECEIVED_SELECTOR: [u8; 4] = [0xBC, 0x19, 0x7C, 0x81]`. -/
def ON_ERC_1155_BATCH_RECEIVED_SELECTOR : List U8 := [0xBC, 0x19, 0x7C, 0x81]

/-- Entry point `on_received` of the reference receiver implementation: the body is
`unimplemented!(...)`, an unconditional panic, which aborts the call and
returns nothing; the abort is modelled as `none`. -/
def Contract.on_received (_self : Contract) (_operator : AccountId)
    (_from : AccountId) (_token_id : TokenId) (_value : Balance)
    (_data : List U8) : Option (List U8) :=
  none

/-- Entry point `on_batch_received` of the reference receiver implementation:
`unimplemented!(...)`, an unconditional panic, modelled as `none`. -/
def Contract.on_batch_received (_self : Contract) (_operator : AccountId)
    (_from : AccountId) (_token_ids : List TokenId) (_values : List Balance)
    (_data : List U8) : Option (List U8) :=
  none

/-- One invocation of an operation of the core, with the host-supplied
caller made explicit. -/
inductive Call where
  | create (caller : AccountId) (value : Balance) (token_id : TokenId)
  | mint (caller : AccountId) (token_id : TokenId) (value : Balance)
  | balanceOf (owner : AccountId) (token_id : TokenId)
  | balanceOfBatch (owners : List AccountId) (token_ids : List TokenId)
  | onReceived (operator from_ : AccountId) (token_id : TokenId)
      (value : Balance) (data : List U8)
  | onBatchReceived (operator from_ : AccountId) (token_ids : List TokenId)
      (values : List Balance) (data : List U8)

/-- The state after one call, under the host's abort-on-error semantics: a
failed call commits nothing, a read changes nothing, and the aborting
receiver entry points commit nothing. -/
def applyCall (c : Contract) : Call → Contract
  | .create caller v t =>
      match c.create caller v t with
      | .ok (c', _, _) => c'
      | .error _ => c
  | .mint caller t v =>
      match c.mint caller t v with
      | .ok (c', _) => c'
      | .error _ => c
  | .balanceOf _ _ => c
  | .balanceOfBatch _ _ => c
  | .onReceived _ _ _ _ _ => c
  | .onBatchReceived _ _ _ _ _ => c

/-- The state after a sequence of calls. -/
def run (c : Contract) (calls : List Call) : Contract :=
  calls.foldl applyCall c

/-- The `TransferSingle` events a `create` call emits: one on success, none
on failure (the host discards everything an aborted call did). -/
def createEmits (c : Contract) (caller : AccountId) (value : Balance)
    (token_id : TokenId) : List TransferSingle :=
  match c.create caller value token_id with
  | .ok (_, ev, _) => [ev]
  | .error _ => []

/-- The `TransferSingle` events a `mint` call emits: one on success, none
on failure. -/
def mintEmits (c : Contract) (caller : AccountId) (token_id : TokenId)
    (value : Balance) : List TransferSingle :=
  match c.mint caller token_id value with
  | .ok (_, ev) => [ev]
  | .error _ => []

/-- A concrete state used by witnesses: the `init_contract` fixture of the
source's tests, with alice = 1, bob = 2 (balances (1,1) ↦ 10, (1,2) ↦ 20,
(2,1) ↦ 10). -/
def sample : Contract :=
  { balances := fun k =>
      if k = (1, 1) then some 10
      else if k = (1, 2) then some 20
      else if k = (2, 1) then some 10
      else none,
    approvals := fun _ => none }

/-- C1: if the balance store contains an entry for (caller, t), then
`mint(t, v)` by that caller succeeds, sets the stored balance of
(caller, t) to exactly `v` (overwriting, not adding to, the prior value),
and emits `TransferSingle{operator = caller, from = None, to = caller,
token_id = t, value = v}`. -/
theorem C1_mint_success_overwrites (c : Contract) (caller : AccountId)
    (t : TokenId) (v : Balance)
    (h : (c.balances (caller, t)).isSome = true) :
    ∃ c' ev, c.mint caller t v = .ok (c', ev) ∧
      c'.balances (caller, t) = some v ∧
      ev = { operator := some caller, from_ := none, to_ := some caller,
             token_id := t, value := v } := by
  refine ⟨{ c with balances := fun k =>
      if k = (caller, t) then some v else c.balances k }, _, ?_, ?_, rfl⟩
  · simp [Contract.mint, h]
  · simp

/-- Witness for C1 at a concrete input: in `sample` the entry (1, 1) holds
10; minting 123 gives exactly 123 (not 133). -/
theorem C1_mint_success_overwrites_witness :
    (sample.balances (1, 1)).isSome = true ∧
    ∃ c' ev, sample.mint 1 1 123 = .ok (c', ev) ∧
      c'.balances (1, 1) = some 123 ∧
      ev = { operator := some 1, from_ := none, to_ := some 1,
             token_id := 1, value := 123 } :=
  ⟨rfl, C1_mint_success_overwrites sample 1 1 123 rfl⟩

/-- C3: if the balance store has no entry for (caller, t), then
`create(v, t)` by that caller succeeds, stores balance `v` for
(caller, t), returns `Ok(t)`, and emits `TransferSingle{operator = caller,
from = None, to = (None if v = 0 else caller), token_id = t, value = v}`. -/
theorem C3_create_success (c : Contract) (caller : AccountId) (t : TokenId)
    (v : Balance) (h : c.balances (caller, t) = none) :
    ∃ c' ev, c.create caller v t = .ok (c', ev, t) ∧
      c'.balances (caller, t) = some v ∧
      ev = { operator := some caller, from_ := none,
             to_ := if v = 0 then none else some caller,
             token_id := t, value := v } := by
  refine ⟨{ c with balances := fun k =>
      if k = (caller, t) then some v else c.balances k }, _, ?_, ?_, rfl⟩
  · simp [Contract.create, h]
  · simp

/-- Witness for C3 at concrete inputs: creating token 7 with value 0 and
token 8 with value 42 from the fresh contract. -/
theorem C3_create_success_witness :
    (Contract.new.balances (1, 7) = none ∧
      ∃ c' ev, Contract.new.create 1 0 7 = .ok (c', ev, 7) ∧
        c'.balances (1, 7) = some 0 ∧
        ev = { operator := some 1, from_ := none, to_ := none,
               token_id := 7, value := 0 }) ∧
    (Contract.new.balances (1, 8) = none ∧
      ∃ c' ev, Contract.new.create 1 42 8 = .ok (c', ev, 8) ∧
        c'.balances (1, 8) = some 42 ∧
        ev = { operator := some 1, from_ := none, to_ := some 1,
               token_id := 8, value := 42 }) := by
  constructor
  · exact ⟨rfl, by simpa using C3_create_success Contract.new 1 7 0 rfl⟩
  · exact ⟨rfl, by simpa using C3_create_success Contract.new 1 8 42 rfl⟩

/-- C4: if the balance store already contains an entry for (caller, t),
then `create(v, t)` by that caller fails with `TokenAlreadyExists`, leaves
the whole state unchanged (the duplicate check runs before any write), and
emits no event. -/
theorem C4_create_duplicate_fails (c : Contract) (caller : AccountId)
    (t : TokenId) (v : Balance)
    (h : (c.balances (caller, t)).isSome = true) :
    c.create caller v t = .error .TokenAlreadyExists ∧
    applyCall c (.create caller v t) = c ∧
    createEmits c caller v t = [] := by
  refine ⟨?_, ?_, ?_⟩ <;>
    simp [Contract.create, applyCall, createEmits, h]

/-- Witness for C4 at a concrete input: (1, 1) exists in `sample`, so a
second create fails and changes nothing. -/
theorem C4_create_duplicate_fails_witness :
    (sample.balances (1, 1)).isSome = true ∧
    (sample.create 1 99 1 = .error .TokenAlreadyExists ∧
      applyCall sample (.create 1 99 1) = sample ∧
      createEmits sample 1 99 1 = []) :=
  ⟨rfl, C4_create_duplicate_fails sample 1 1 99 rfl⟩

/-- C5: if the balance store has no entry for (caller, t), then
`mint(t, v)` by that caller fails with `UnexistentTokenOrCallerNotOwner`,
creates no entry and leaves the whole state unchanged, and emits no
event. -/
theorem C5_mint_unowned_fails (c : Contract) (caller : AccountId)
    (t : TokenId) (v : Balance) (h : c.balances (caller, t) = none) :
    c.mint caller t v = .error .UnexistentTokenOrCallerNotOwner ∧
    applyCall c (.mint caller t v) = c ∧
    mintEmits c caller t v = [] := by
  refine ⟨?_, ?_, ?_⟩ <;>
    simp [Contract.mint, applyCall, mintEmits, h]

/-- Witness for C5 at a concrete input: the fresh contract has no entry
(1, 1), so `mint(1, 123)` fails, as in the source's
`minting_not_allowed_for_nonexistent_tokens` test. -/
theorem C5_mint_unowned_fails_witness :
    Contract.new.balances (1, 1) = none ∧
    (Contract.new.mint 1 1 123 = .error .UnexistentTokenOrCallerNotOwner ∧
      applyCall Contract.new (.mint 1 1 123) = Contract.new ∧
      mintEmits Contract.new 1 1 123 = []) :=
  ⟨rfl, C5_mint_unowned_fails Contract.new 1 1 123 rfl⟩

/-- A call that is not a `create` by `a` for token `t` cannot bring the
entry (a, t) into existence. -/
theorem applyCall_balances_none (c : Contract) (call : Call) (a : AccountId)
    (t : TokenId) (h : c.balances (a, t) = none)
    (hcall : ∀ v, call ≠ .create a v t) :
    (applyCall c call).balances (a, t) = none := by
  cases call with
  | create caller v t' =>
      by_cases hb : (c.balances (caller, t')).isSome = true
      · simpa [applyCall, Contract.create, hb] using h
      · by_cases hk : ((a, t) : AccountId × TokenId) = (caller, t')
        · have h1 : a = caller := congrArg Prod.fst hk
          have h2 : t = t' := congrArg Prod.snd hk
          exact absurd (by rw [h1, h2]) (hcall v)
        · simpa [applyCall, Contract.create, hb, hk] using h
  | mint caller t' v =>
      by_cases hb : (c.balances (caller, t')).isSome = true
      · by_cases hk : ((a, t) : AccountId × TokenId) = (caller, t')
        · rw [← hk] at hb
          simp [h] at hb
        · simpa [applyCall, Contract.mint, hb, hk] using h
      · simpa [applyCall, Contract.mint, hb] using h
  | balanceOf _ _ => simpa [applyCall] using h
  | balanceOfBatch _ _ => simpa [applyCall] using h
  | onReceived _ _ _ _ _ => simpa [applyCall] using h
  | onBatchReceived _ _ _ _ _ => simpa [applyCall] using h

/-- If (a, t) is absent and no call in the sequence is a `create` by `a`
for `t`, the entry stays absent. -/
theorem run_balances_none (a : AccountId) (t : TokenId) :
    ∀ (calls : List Call) (c : Contract), c.balances (a, t) = none →
      (∀ v, Call.create a v t ∉ calls) →
      (run c calls).balances (a, t) = none := by
  intro calls
  induction calls with
  | nil => intro c h _; simpa [run] using h
  | cons call rest ih =>
      intro c h hcalls
      have hstep : (applyCall c call).balances (a, t) = none :=
        applyCall_balances_none c call a t h
          (fun v hv => hcalls v (by rw [hv]; exact List.mem_cons_self _ _))
      have : run c (call :: rest) = run (applyCall c call) rest := by
        simp [run]
      rw [this]
      exact ih (applyCall c call) hstep
        (fun v hv => hcalls v (List.mem_cons_of_mem _ hv))

/-- C6: `balance_of` is a total pure read: it returns the stored balance
when the entry exists, returns 0 when no entry exists, never modifies the
state, and for every (a, t) never passed to `create` over any call
sequence from the fresh contract it returns 0. -/
theorem C6_balance_of_total_pure (c : Contract) (a : AccountId) (t : TokenId) :
    (∀ b, c.balances (a, t) = some b → c.balance_of a t = b) ∧
    (c.balances (a, t) = none → c.balance_of a t = 0) ∧
    applyCall c (.balanceOf a t) = c ∧
    (∀ calls : List Call, (∀ v, Call.create a v t ∉ calls) →
      (run Contract.new calls).balance_of a t = 0) := by
  refine ⟨?_, ?_, rfl, ?_⟩
  · intro b hb; simp [Contract.balance_of, hb]
  · intro hb; simp [Contract.balance_of, hb]
  · intro calls hcalls
    have hnone : (run Contract.new calls).balances (a, t) = none :=
      run_balances_none a t calls Contract.new rfl hcalls
    simp [Contract.balance_of, hnone]

/-- Witness for C6 at concrete inputs: the stored value 10 is read back
from `sample`, an absent pair reads 0, and after a call sequence that never
creates (3, 9) the read of (3, 9) is 0. -/
theorem C6_balance_of_total_pure_witness :
    (sample.balances (1, 1) = some 10 ∧ sample.balance_of 1 1 = 10) ∧
    (sample.balances (2, 2) = none ∧ sample.balance_of 2 2 = 0) ∧
    (run Contract.new [.create 1 5 1, .mint 1 1 7, .balanceOf 3 9]).balance_of 3 9 = 0 := by
  refine ⟨⟨rfl, (C6_balance_of_total_pure sample 1 1).1 10 rfl⟩,
    ⟨rfl, (C6_balance_of_total_pure sample 2 2).2.1 rfl⟩,
    (C6_balance_of_total_pure (run Contract.new
      [.create 1 5 1, .mint 1 1 7, .balanceOf 3 9]) 3 9).2.2.2
      [.create 1 5 1, .mint 1 1 7, .balanceOf 3 9] ?_⟩
  intro v hv
  simp only [List.mem_cons, List.not_mem_nil, or_false] at hv
  rcases hv with h | h | h <;> simp at h

/-- C7: the reference recipient's `on_received` and `on_batch_received`
abort unconditionally on every input — they never return a value, and in
particular never return the acceptance selectors 0xF23A6E61 and
0xBC197C81. -/
theorem C7_receiver_always_aborts (c : Contract)
    (operator from_ : AccountId) (t : TokenId) (v : Balance)
    (tids : List TokenId) (vals : List Balance) (data : List U8) :
    c.on_received operator from_ t v data = none ∧
    c.on_batch_received operator from_ tids vals data = none ∧
    c.on_received operator from_ t v data ≠ some ON_ERC_1155_RECEIVED_SELECTOR ∧
    c.on_batch_received operator from_ tids vals data ≠
      some ON_ERC_1155_BATCH_RECEIVED_SELECTOR := by
  refine ⟨rfl, rfl, ?_, ?_⟩ <;> simp [Contract.on_received, Contract.on_batch_received]

/-- Instantiation of C7 at concrete inputs. -/
theorem C7_receiver_always_aborts_witness :
    Contract.new.on_received 1 2 3 4 [] = none ∧
    Contract.new.on_batch_received 1 2 [3] [4] [] = none :=
  ⟨(C7_receiver_always_aborts Contract.new 1 2 3 4 [3] [4] []).1,
    (C7_receiver_always_aborts Contract.new 1 2 3 4 [3] [4] []).2.1⟩

/-- C8: balance-entry existence is monotone — every call preserves the
existence of an entry (a, t), and a call that brings (a, t) into existence
is necessarily a `create` by `a` itself for token `t`, and that `create`
succeeds. -/
theorem C8_entry_existence_monotone (c : Contract) (call : Call)
    (a : AccountId) (t : TokenId) :
    ((c.balances (a, t)).isSome = true →
      ((applyCall c call).balances (a, t)).isSome = true) ∧
    (c.balances (a, t) = none →
      ((applyCall c call).balances (a, t)).isSome = true →
      ∃ v c' ev, call = .create a v t ∧ c.create a v t = .ok (c', ev, t)) := by
  constructor
  · intro h
    cases call with
    | create caller v t' =>
        by_cases hb : (c.balances (caller, t')).isSome = true
        · simpa [applyCall, Contract.create, hb] using h
        · by_cases hk : ((a, t) : AccountId × TokenId) = (caller, t')
          · simp [applyCall, Contract.create, hb, hk]
          · simpa [applyCall, Contract.create, hb, hk] using h
    | mint caller t' v =>
        by_cases hb : (c.balances (caller, t')).isSome = true
        · by_cases hk : ((a, t) : AccountId × TokenId) = (caller, t')
          · simp [applyCall, Contract.mint, hb, hk]
          · simpa [applyCall, Contract.mint, hb, hk] using h
        · simpa [applyCall, Contract.mint, hb] using h
    | balanceOf _ _ => simpa [applyCall] using h
    | balanceOfBatch _ _ => simpa [applyCall] using h
    | onReceived _ _ _ _ _ => simpa [applyCall] using h
    | onBatchReceived _ _ _ _ _ => simpa [applyCall] using h
  · intro hnone hafter
    by_cases hc : ∃ v, call = Call.create a v t
    · obtain ⟨v, rfl⟩ := hc
      refine ⟨v,
        { c with balances := fun k =>
            if k = (a, t) then some v else c.balances k },
        { operator := some a, from_ := none,
          to_ := if v = 0 then none else some a, token_id := t, value := v },
        rfl, ?_⟩
      simp [Contract.create, hnone]
    · exfalso
      have : (applyCall c call).balances (a, t) = none :=
        applyCall_balances_none c call a t hnone
          (fun v hv => hc ⟨v, hv⟩)
      rw [this] at hafter
      simp at hafter

/-- Instantiation of C8 at concrete inputs: a mint by 2 on (2, 1)
preserves the existence of (1, 1) in `sample`, and the only way (1, 3)
appears from `sample` is a successful `create` by 1 for 3. -/
theorem C8_entry_existence_monotone_witness :
    (((applyCall sample (.mint 2 1 77)).balances (1, 1)).isSome = true) ∧
    (∃ v c' ev, (Call.create 1 5 3) = Call.create 1 v 3 ∧
      sample.create 1 v 3 = .ok (c', ev, 3)) :=
  ⟨(C8_entry_existence_monotone sample (.mint 2 1 77) 1 1).1 rfl,
    (C8_entry_existence_monotone sample (.create 1 5 3) 1 3).2 rfl rfl⟩

/-- C9: frame property — a successful `create` or `mint` by `caller` for
token `t` changes at most the entry keyed (caller, t): every other entry
keeps both its existence/value and its `balance_of` reading. -/
theorem C9_frame_property (c : Contract) (caller : AccountId) (v : Balance)
    (t : TokenId) :
    (∀ c' ev r, c.create caller v t = .ok (c', ev, r) →
      ∀ a u, (a, u) ≠ (caller, t) →
        c'.balances (a, u) = c.balances (a, u) ∧
        c'.balance_of a u = c.balance_of a u) ∧
    (∀ c' ev, c.mint caller t v = .ok (c', ev) →
      ∀ a u, (a, u) ≠ (caller, t) →
        c'.balances (a, u) = c.balances (a, u) ∧
        c'.balance_of a u = c.balance_of a u) := by
  constructor
  · intro c' ev r hok a u hne
    by_cases hb : (c.balances (caller, t)).isSome = true
    · simp [Contract.create, hb] at hok
    · simp [Contract.create, hb] at hok
      obtain ⟨hc', -, -⟩ := hok
      subst hc'
      constructor
      · simp [hne]
      · simp [Contract.balance_of, hne]
  · intro c' ev hok a u hne
    by_cases hb : (c.balances (caller, t)).isSome = true
    · simp [Contract.mint, hb] at hok
      obtain ⟨hc', -⟩ := hok
      subst hc'
      constructor
      · simp [hne]
      · simp [Contract.balance_of, hne]
    · simp [Contract.mint, hb] at hok

/-- Instantiation of C9 at concrete inputs: creating (3, 5) in `sample`
leaves (1, 1) untouched, and minting (1, 1) leaves (1, 2) untouched. -/
theorem C9_frame_property_witness :
    ((applyCall sample (.create 3 7 5)).balances (1, 1) = sample.balances (1, 1) ∧
      (applyCall sample (.create 3 7 5)).balance_of 1 1 = sample.balance_of 1 1) ∧
    ((applyCall sample (.mint 1 1 99)).balances (1, 2) = sample.balances (1, 2) ∧
      (applyCall sample (.mint 1 1 99)).balance_of 1 2 = sample.balance_of 1 2) :=
  ⟨(C9_frame_property sample 3 7 5).1 (applyCall sample (.create 3 7 5))
      { operator := some 3, from_ := none, to_ := some 3, token_id := 5, value := 7 }
      5 rfl 1 1 (by decide),
    (C9_frame_property sample 1 99 1).2 (applyCall sample (.mint 1 1 99))
      { operator := some 1, from_ := none, to_ := some 1, token_id := 1, value := 99 }
      rfl 1 2 (by decide)⟩

/-- Every single call leaves the approvals mapping untouched. -/
theorem applyCall_approvals (c : Contract) (call : Call) :
    (applyCall c call).approvals = c.approvals := by
  cases call with
  | create caller v t =>
      by_cases hb : (c.balances (caller, t)).isSome = true <;>
        simp [applyCall, Contract.create, hb]
  | mint caller t v =>
      by_cases hb : (c.balances (caller, t)).isSome = true <;>
        simp [applyCall, Contract.mint, hb]
  | balanceOf _ _ => rfl
  | balanceOfBatch _ _ => rfl
  | onReceived _ _ _ _ _ => rfl
  | onBatchReceived _ _ _ _ _ => rfl

/-- Approvals are preserved along any call sequence. -/
theorem run_approvals (calls : List Call) :
    ∀ c : Contract, (run c calls).approvals = c.approvals := by
  induction calls with
  | nil => intro c; rfl
  | cons call rest ih =>
      intro c
      have : run c (call :: rest) = run (applyCall c call) rest := by
        simp [run]
      rw [this, ih, applyCall_approvals]

/-- A contract equal to `sample` on balances but with a nonempty approvals
store, used to witness that the operations never read approvals. -/
def sampleApproved : Contract :=
  { balances := sample.balances,
    approvals := fun k => if k = (1, 2) then some () else none }

/-- C10: no operation of the core reads or writes the approvals mapping —
every call preserves approvals exactly, every state reachable from the
fresh contract has an empty approvals store, and the observable behaviour
of every operation (reads, and the balances / event / return value of the
mutators) depends only on the balances mapping. -/
theorem C10_approvals_untouched :
    (∀ (c : Contract) (call : Call), (applyCall c call).approvals = c.approvals) ∧
    (∀ (calls : List Call) (k : AccountId × AccountId),
      (run Contract.new calls).approvals k = none) ∧
    (∀ c d : Contract, c.balances = d.balances →
      (∀ a t, c.balance_of a t = d.balance_of a t) ∧
      (∀ os ts, c.balance_of_batch os ts = d.balance_of_batch os ts) ∧
      (∀ caller v t,
        (c.create caller v t).map (fun r => (r.1.balances, r.2)) =
          (d.create caller v t).map (fun r => (r.1.balances, r.2))) ∧
      (∀ caller t v,
        (c.mint caller t v).map (fun r => (r.1.balances, r.2)) =
          (d.mint caller t v).map (fun r => (r.1.balances, r.2))) ∧
      (∀ operator from_ t v data,
        c.on_received operator from_ t v data =
          d.on_received operator from_ t v data) ∧
      (∀ operator from_ tids vals data,
        c.on_batch_received operator from_ tids vals data =
          d.on_batch_received operator from_ tids vals data)) := by
  refine ⟨applyCall_approvals, ?_, ?_⟩
  · intro calls k
    rw [run_approvals]
    rfl
  · intro c d h
    refine ⟨?_, ?_, ?_, ?_, fun _ _ _ _ _ => rfl, fun _ _ _ _ _ => rfl⟩
    · intro a t; simp [Contract.balance_of, h]
    · intro os ts; simp [Contract.balance_of_batch, Contract.balance_of, h]
    · intro caller v t
      by_cases hb : (c.balances (caller, t)).isSome = true
      · simp [Contract.create, h] at hb ⊢
        simp [hb]
      · simp [Contract.create, h] at hb ⊢
        simp [hb, Except.map]
    · intro caller t v
      by_cases hb : (c.balances (caller, t)).isSome = true
      · simp [Contract.mint, h] at hb ⊢
        simp [hb, Except.map]
      · simp [Contract.mint, h] at hb ⊢
        simp [hb]

/-- Instantiation of C10 at concrete inputs: a create call preserves the
approvals of `sample`, a two-call run from the fresh contract has an empty
approvals entry, and `sample` and `sampleApproved` (equal balances,
different approvals) agree on a read and on a mint result. -/
theorem C10_approvals_untouched_witness :
    (applyCall sample (.create 1 5 9)).approvals = sample.approvals ∧
    (run Contract.new [.create 1 0 1, .mint 1 1 5]).approvals (1, 2) = none ∧
    sample.balance_of 1 1 = sampleApproved.balance_of 1 1 ∧
    (sample.mint 1 1 55).map (fun r => (r.1.balances, r.2)) =
      (sampleApproved.mint 1 1 55).map (fun r => (r.1.balances, r.2)) :=
  ⟨C10_approvals_untouched.1 sample (.create 1 5 9),
    C10_approvals_untouched.2.1 [.create 1 0 1, .mint 1 1 5] (1, 2),
    (C10_approvals_untouched.2.2 sample sampleApproved rfl).1 1 1,
    (C10_approvals_untouched.2.2 sample sampleApproved rfl).2.2.2.1 1 1 55⟩

/-- A fold that pushes one element per step is an append of a map. -/
theorem foldl_push_map {α β : Type} (f : α → β) (l : List α) :
    ∀ acc : List β, l.foldl (fun out x => out ++ [f x]) acc = acc ++ l.map f := by
  induction l with
  | nil => intro acc; simp
  | cons x xs ih => intro acc; simp [List.foldl_cons, ih]

/-- A fold that appends a block per step factors through the empty
accumulator. -/
theorem foldl_block_append {α β : Type} (g : α → List β) (l : List α) :
    ∀ acc : List β,
      l.foldl (fun out x => out ++ g x) acc =
        acc ++ l.foldl (fun out x => out ++ g x) [] := by
  induction l with
  | nil => intro acc; simp
  | cons x xs ih =>
      intro acc
      simp only [List.foldl_cons, List.nil_append]
      rw [ih (acc ++ g x), ih (g x), List.append_assoc]

/-- Rewriting `balance_of_batch` as a fold of per-owner rows. -/
theorem balance_of_batch_eq_foldl (c : Contract) (os : List AccountId)
    (ts : List TokenId) :
    c.balance_of_batch os ts =
      os.foldl (fun out o => out ++ ts.map (fun t => c.balance_of o t)) [] := by
  unfold Contract.balance_of_batch
  simp only [foldl_push_map]

/-- Unfolding one owner of `balance_of_batch`: the row for the first owner
followed by the batch over the remaining owners. -/
theorem balance_of_batch_cons (c : Contract) (o : AccountId)
    (os : List AccountId) (ts : List TokenId) :
    c.balance_of_batch (o :: os) ts =
      ts.map (fun t => c.balance_of o t) ++ c.balance_of_batch os ts := by
  rw [balance_of_batch_eq_foldl, balance_of_batch_eq_foldl]
  simp only [List.foldl_cons, List.nil_append]
  rw [foldl_block_append]

/-- The batch output has length |owners| * |token_ids|. -/
theorem balance_of_batch_length (c : Contract) (os : List AccountId)
    (ts : List TokenId) :
    (c.balance_of_batch os ts).length = os.length * ts.length := by
  induction os with
  | nil => simp [Contract.balance_of_batch]
  | cons o os ih =>
      rw [balance_of_batch_cons]
      simp [ih, Nat.succ_mul, Nat.add_comm]

/-- Row-major index bound. -/
theorem rowMajor_lt {i j n l : Nat} (hi : i < n) (hj : j < l) :
    i * l + j < n * l := by
  calc i * l + j < i * l + l := Nat.add_lt_add_left hj _
    _ = (i + 1) * l := (Nat.succ_mul i l).symm
    _ ≤ n * l := Nat.mul_le_mul_right l hi

/-- Option-valued row-major lookup into the batch output. -/
theorem balance_of_batch_getElem? (c : Contract) (ts : List TokenId) :
    ∀ (os : List AccountId) (i j : Nat) (hi : i < os.length)
      (hj : j < ts.length),
      (c.balance_of_batch os ts)[i * ts.length + j]? =
        some (c.balance_of os[i] ts[j]) := by
  intro os
  induction os with
  | nil => intro i j hi _; exact absurd hi (by simp)
  | cons o os ih =>
      intro i j hi hj
      cases i with
      | zero =>
          rw [balance_of_batch_cons, Nat.zero_mul, Nat.zero_add,
            List.getElem?_append_left (by simpa using hj)]
          simp [List.getElem?_map, List.getElem?_eq_getElem hj]
      | succ i =>
          rw [balance_of_batch_cons]
          have hlen : (ts.map fun t => c.balance_of o t).length ≤
              (i + 1) * ts.length + j := by
            simp only [List.length_map]
            exact Nat.le_trans (Nat.le_mul_of_pos_left ts.length (Nat.succ_pos i))
              (Nat.le_add_right _ _)
          rw [List.getElem?_append_right hlen]
          have hsub : (i + 1) * ts.length + j -
              (ts.map fun t => c.balance_of o t).length = i * ts.length + j := by
            rw [List.length_map, Nat.succ_mul, Nat.add_right_comm, Nat.add_sub_cancel]
          rw [hsub]
          have := ih i j (Nat.lt_of_succ_lt_succ (by simpa using hi)) hj
          simpa using this

/-- C2: `balance_of_batch(owners, token_ids)` returns the full
cross-product in row-major order — its length is |owners| * |token_ids|,
its element at position i * |token_ids| + j is
`balance_of(owners[i], token_ids[j])`, and an empty input sequence on
either side yields the empty output. -/
theorem C2_batch_cross_product (c : Contract) (os : List AccountId)
    (ts : List TokenId) :
    (c.balance_of_batch os ts).length = os.length * ts.length ∧
    (∀ (i j : Nat) (hi : i < os.length) (hj : j < ts.length),
      (c.balance_of_batch os ts).get
          ⟨i * ts.length + j,
            by rw [balance_of_batch_length]; exact rowMajor_lt hi hj⟩ =
        c.balance_of (os.get ⟨i, hi⟩) (ts.get ⟨j, hj⟩)) ∧
    (os = [] → c.balance_of_batch os ts = []) ∧
    (ts = [] → c.balance_of_batch os ts = []) := by
  refine ⟨balance_of_batch_length c os ts, ?_, ?_, ?_⟩
  · intro i j hi hj
    have hidx : i * ts.length + j < (c.balance_of_batch os ts).length := by
      rw [balance_of_batch_length]; exact rowMajor_lt hi hj
    have h := balance_of_batch_getElem? c ts os i j hi hj
    rw [List.getElem?_eq_getElem hidx] at h
    simpa [List.get_eq_getElem] using Option.some.inj h
  · rintro rfl; rfl
  · rintro rfl
    induction os with
    | nil => rfl
    | cons o os ih => rw [balance_of_batch_cons]; simpa using ih

/-- Instantiation of C2 at the concrete batch scenario of the source's
tests: `balance_of_batch([1, 2, 3], [1, 2])` over `sample` has length 6,
its entry at position 1 * 2 + 0 is `balance_of(2, 1) = 10`, and both empty
inputs give empty outputs. -/
theorem C2_batch_cross_product_witness :
    (sample.balance_of_batch [1, 2, 3] [1, 2]).length = 6 ∧
    (sample.balance_of_batch [1, 2, 3] [1, 2]).get ⟨2, by decide⟩ = 10 ∧
    sample.balance_of_batch [] [1, 2] = [] ∧
    sample.balance_of_batch [1, 2, 3] [] = [] := by
  refine ⟨(C2_batch_cross_product sample [1, 2, 3] [1, 2]).1, ?_, ?_, ?_⟩
  · have h := (C2_batch_cross_product sample [1, 2, 3] [1, 2]).2.1 1 0
      (by decide) (by decide)
    simpa using h
  · exact (C2_batch_cross_product sample [] [1, 2]).2.2.1 rfl
  · exact (C2_batch_cross_product sample [1, 2, 3] []).2.2.2 rfl

end Songnft
